import Mathlib

/-!
Verification of the resumable caption journal and checkpointing dispatcher
of `picture-captioner-clusterer-chunker`.

The development shallowly embeds the two core modules:

* `src/journal.py` — the `CaptionRecord` data model (pydantic), and the
  `CaptionJournal` class with `load` / `is_done` / `write` / `close`.
  The journal file is modelled as a list of lines; a line is either blank,
  non-JSON garbage, or a JSON value.  JSON values are modelled by the
  inductive `JsonValue`; pydantic's `model_validate_json` becomes
  `parseRecord`, and `model_dump_json` becomes `serializeRecord`.

* `src/caption.py` — the dispatch loop of the `run` command: `process_one`
  (per-item processing with its exception classification), the sequential
  `max_workers <= 1` loop with the `restart_every` checkpoint
  (`seqLoop` / `runSeq`), the threaded `max_workers > 1` chunked
  thread-pool loop (`runThreadedLoop` / `runThreaded`, parameterized by
  the order in which a chunk's futures complete), the local-backend
  worker clamp and path selection (`run`), the end-of-run exit signaling,
  and the `_batched` chunking helper with `SUBMIT_BATCH = 500`.  The
  capability call (`load_image` followed by `be.caption`) is abstracted
  as a function returning either a caption or a raised exception
  (`Except PyExc String`).
-/

/-- The closed status set of `CaptionRecord.status`
    (`Literal["success", "error_corrupt", "error_api", "error_model"]`). -/
inductive Status where
  | success
  | error_corrupt
  | error_api
  | error_model
deriving DecidableEq

/-- The string form of a status, as serialized by `model_dump_json`. -/
def Status.toString : Status → String
  | .success => "success"
  | .error_corrupt => "error_corrupt"
  | .error_api => "error_api"
  | .error_model => "error_model"

/-- Pydantic's validation of the `status` field: only the four literal
    strings are accepted, any other value is a `ValidationError`. -/
def parseStatus : String → Option Status
  | "success" => some .success
  | "error_corrupt" => some .error_corrupt
  | "error_api" => some .error_api
  | "error_model" => some .error_model
  | _ => none

theorem parseStatus_toString (st : Status) : parseStatus st.toString = some st := by
  cases st <;> rfl

/-- `CaptionRecord` from `src/journal.py`: `rel_path : str`,
    `caption : str | None`, `status` from the closed set. -/
structure CaptionRecord where
  rel_path : String
  caption : Option String
  status : Status
deriving DecidableEq

/-- JSON values, as produced by parsing one line of `captions.jsonl`. -/
inductive JsonValue where
  | null
  | bool (b : Bool)
  | num (n : Int)
  | str (s : String)
  | arr (xs : List JsonValue)
  | obj (fields : List (String × JsonValue))

/-- Field lookup in a JSON object.  Python's `json` parser keeps the *last*
    occurrence of a duplicated key, hence the lookup over the reversed list. -/
def jsonLookup (fields : List (String × JsonValue)) (key : String) : Option JsonValue :=
  List.lookup key fields.reverse

/-- Validation of a `str` field: only a JSON string is accepted. -/
def asStr : JsonValue → Option String
  | .str s => some s
  | _ => none

/-- Validation of a `str | None` field: a JSON string or `null`. -/
def asNullableStr : JsonValue → Option (Option String)
  | .null => some none
  | .str s => some (some s)
  | _ => none

/-- Pydantic's `CaptionRecord.model_validate_json` applied to an already
    JSON-parsed line: the value must be an object with a string `rel_path`,
    a nullable-string `caption` and a `status` from the closed set.
    Extra fields are ignored (pydantic's default `extra="ignore"`);
    a missing or ill-typed required field is a `ValidationError` (`none`). -/
def parseRecord : JsonValue → Option CaptionRecord
  | .obj fields => do
      let rp ← (jsonLookup fields "rel_path").bind asStr
      let cap ← (jsonLookup fields "caption").bind asNullableStr
      let stStr ← (jsonLookup fields "status").bind asStr
      let st ← parseStatus stStr
      pure ⟨rp, cap, st⟩
  | _ => none

/-- `CaptionRecord.model_dump_json`: the serialized object has exactly the
    three declared fields. -/
def serializeRecord (r : CaptionRecord) : JsonValue :=
  .obj [("rel_path", .str r.rel_path),
        ("caption", match r.caption with | none => .null | some c => .str c),
        ("status", .str r.status.toString)]

theorem parseRecord_serializeRecord (r : CaptionRecord) :
    parseRecord (serializeRecord r) = some r := by
  obtain ⟨rp, cap, st⟩ := r
  cases cap <;>
    simp [parseRecord, serializeRecord, jsonLookup, List.lookup, asStr, asNullableStr,
      parseStatus_toString, bind, Option.bind]

/-- One physical line of the journal file: blank (skipped silently),
    non-JSON garbage, or a JSON value. -/
inductive Line where
  | blank
  | garbage (s : String)
  | json (v : JsonValue)

/-- The in-memory value stored per key by `load`:
    `{"caption": ..., "status": ...}`. -/
structure Rec where
  caption : Option String
  status : Status
deriving DecidableEq

/-- Python dict assignment `d[k] = v`, on an insertion-ordered association
    list: replace the binding in place if the key is present, otherwise
    append a new binding at the end. -/
def dictInsert (m : List (String × Rec)) (k : String) (v : Rec) : List (String × Rec) :=
  if m.any (fun p => p.1 == k) then
    m.map (fun p => if p.1 = k then (k, v) else p)
  else
    m ++ [(k, v)]

theorem lookup_cons {β : Type} (a : String × β) (m : List (String × β)) (k' : String) :
    List.lookup k' (a :: m) = if k' = a.1 then some a.2 else List.lookup k' m := by
  rcases a with ⟨ak, av⟩
  by_cases hk : k' = ak
  · simp [List.lookup, hk]
  · have hb : (k' == ak) = false := by simp [hk]
    simp [List.lookup, hb, hk]

theorem lookup_replace_ne (m : List (String × Rec)) (k k' : String) (v : Rec)
    (h : k' ≠ k) :
    List.lookup k' (m.map (fun p => if p.1 = k then (k, v) else p)) = List.lookup k' m := by
  induction m with
  | nil => rfl
  | cons a m ih =>
    by_cases hak : a.1 = k
    · rw [List.map_cons, if_pos hak, lookup_cons, lookup_cons, ih]
      simp [hak, h]
    · rw [List.map_cons, if_neg hak, lookup_cons, lookup_cons, ih]

theorem lookup_replace_eq (m : List (String × Rec)) (k : String) (v : Rec)
    (h : m.any (fun p => p.1 == k) = true) :
    List.lookup k (m.map (fun p => if p.1 = k then (k, v) else p)) = some v := by
  induction m with
  | nil => simp at h
  | cons a m ih =>
    simp only [List.any_cons, Bool.or_eq_true, beq_iff_eq] at h
    by_cases hak : a.1 = k
    · rw [List.map_cons, if_pos hak, lookup_cons]
      simp
    · have hm : m.any (fun p => p.1 == k) = true := by
        rcases h with h | h
        · exact absurd h hak
        · exact h
      rw [List.map_cons, if_neg hak, lookup_cons, if_neg (fun hh => hak hh.symm), ih hm]

theorem lookup_none_of_not_any (m : List (String × Rec)) (k : String)
    (h : m.any (fun p => p.1 == k) = false) : List.lookup k m = none := by
  induction m with
  | nil => rfl
  | cons a m ih =>
    simp only [List.any_cons, Bool.or_eq_false_iff, beq_eq_false_iff_ne] at h
    rw [lookup_cons, if_neg (fun hh => h.1 hh.symm), ih (by simpa using h.2)]

theorem lookup_append_one (m : List (String × Rec)) (k k' : String) (v : Rec) :
    List.lookup k' (m ++ [(k, v)]) =
      match List.lookup k' m with
      | some w => some w
      | none => if k' = k then some v else none := by
  induction m with
  | nil =>
    rw [List.nil_append, lookup_cons]
    rfl
  | cons a m ih =>
    rw [List.cons_append, lookup_cons, lookup_cons, ih]
    by_cases hk : k' = a.1 <;> simp [hk]

theorem lookup_dictInsert (m : List (String × Rec)) (k k' : String) (v : Rec) :
    List.lookup k' (dictInsert m k v) = if k' = k then some v else List.lookup k' m := by
  unfold dictInsert
  by_cases hany : m.any (fun p => p.1 == k) = true
  · rw [if_pos hany]
    by_cases hk : k' = k
    · subst hk; rw [if_pos rfl, lookup_replace_eq m k' v hany]
    · rw [if_neg hk, lookup_replace_ne m k k' v hk]
  · rw [if_neg hany, lookup_append_one]
    by_cases hk : k' = k
    · subst hk
      have hf : m.any (fun p => p.1 == k') = false := by
        simp only [Bool.not_eq_true] at hany
        exact hany
      rw [lookup_none_of_not_any m k' hf]
    · cases hm : List.lookup k' m <;> simp [hk]

/-- Python set insertion `s.add(x)` on a list-as-set: add only if absent. -/
def pyInsert (s : List String) (x : String) : List String :=
  if s.contains x then s else s ++ [x]

/-- The body of `CaptionJournal.load`'s per-line loop: blank lines are
    skipped, unparseable lines are discarded and counted, valid records
    overwrite any earlier record for the same key. -/
def loadStep (acc : List (String × Rec) × Nat) (ln : Line) : List (String × Rec) × Nat :=
  match ln with
  | .blank => acc
  | .garbage _ => (acc.1, acc.2 + 1)
  | .json v =>
      match parseRecord v with
      | none => (acc.1, acc.2 + 1)
      | some r => (dictInsert acc.1 r.rel_path ⟨r.caption, r.status⟩, acc.2)

/-- The replay loop of `CaptionJournal.load` over the whole file: returns
    the rebuilt `_records` map and the count of discarded lines. -/
def loadScan (lines : List Line) : List (String × Rec) × Nat :=
  lines.foldl loadStep ([], 0)

/-- The done-set computation at the end of `CaptionJournal.load`:
    `for rel_path, rec in self._records.items(): if rec["status"] not in
    retry_statuses: self._done.add(rel_path)`. -/
def doneOf (records : List (String × Rec)) (retry_statuses : List String) : List String :=
  (records.filter (fun p => ¬ retry_statuses.contains p.2.status.toString)).map (fun p => p.1)

/-- The state of a `CaptionJournal` object together with the content of
    the file at `self.path`.  `fileOpen` models whether `self._file` holds
    an open handle. -/
structure CaptionJournal where
  file : List Line
  records : List (String × Rec)
  done : List String
  fileOpen : Bool

/-- `CaptionJournal.load`: clears `_records` and `_done`, replays the file
    (an absent file behaves as an empty one), recomputes the done set. -/
def CaptionJournal.load (j : CaptionJournal) (retry_statuses : List String) : CaptionJournal :=
  let scanned := loadScan j.file
  { j with records := scanned.1, done := doneOf scanned.1 retry_statuses }

/-- The number of malformed lines discarded (and logged) by
    `CaptionJournal.load`. -/
def CaptionJournal.loadDiscarded (j : CaptionJournal) : Nat :=
  (loadScan j.file).2

/-- `CaptionJournal.is_done`: membership in the done set. -/
def CaptionJournal.is_done (j : CaptionJournal) (rel_path : String) : Bool :=
  j.done.contains rel_path

/-- Errors `CaptionJournal.write` can raise: pydantic validation of the
    record constructed on its first line. -/
inductive WriteError where
  | validationError
deriving DecidableEq

/-- `CaptionJournal.write`: constructs (and validates) a `CaptionRecord`
    first — an invalid status raises a `ValidationError` before the file is
    opened or touched — then appends the serialized line, flushes and
    fsyncs it, and adds the key to the done set.  The pair returned is the
    outcome together with the journal state after the call. -/
def CaptionJournal.write (j : CaptionJournal) (rel_path : String) (caption : Option String)
    (status : String) : Except WriteError Unit × CaptionJournal :=
  match parseStatus status with
  | none => (.error .validationError, j)
  | some st =>
      let line := Line.json (serializeRecord ⟨rel_path, caption, st⟩)
      (.ok (),
        { j with file := j.file ++ [line], fileOpen := true, done := pyInsert j.done rel_path })

/-- `CaptionJournal.close`: releases the file handle; the file content is
    untouched. -/
def CaptionJournal.close (j : CaptionJournal) : CaptionJournal :=
  { j with fileOpen := false }

/-- A journal object freshly constructed on a file with the given content
    (`CaptionJournal(path)`).  An empty list models a missing file. -/
def freshJournal (file : List Line) : CaptionJournal :=
  { file := file, records := [], done := [], fileOpen := false }

/-- Spec-side description of §4.1 / §8: the sequence of valid records a
    file yields, each line parsed independently. -/
def validRecords (lines : List Line) : List CaptionRecord :=
  lines.filterMap (fun ln =>
    match ln with
    | .json v => parseRecord v
    | _ => none)

/-- Spec-side description: a line is malformed when it is neither blank
    nor a parseable record. -/
def isMalformed : Line → Bool
  | .blank => false
  | .garbage _ => true
  | .json v => (parseRecord v).isNone

/-- Spec-side description: replaying a record sequence in order,
    last write per key winning. -/
def replayRecords (rs : List CaptionRecord) : List (String × Rec) :=
  rs.foldl (fun m r => dictInsert m r.rel_path ⟨r.caption, r.status⟩) []

theorem loadScan_eq_aux (lines : List Line) :
    ∀ (m : List (String × Rec)) (d : Nat),
      lines.foldl loadStep (m, d) =
        ((validRecords lines).foldl
            (fun m r => dictInsert m r.rel_path ⟨r.caption, r.status⟩) m,
          d + (lines.filter isMalformed).length) := by
  induction lines with
  | nil => intro m d; simp [validRecords]
  | cons ln rest ih =>
    intro m d
    cases ln with
    | blank =>
      simp only [List.foldl_cons, loadStep]
      rw [ih]
      simp [validRecords, isMalformed]
    | garbage s =>
      simp only [List.foldl_cons, loadStep]
      rw [ih]
      simp [validRecords, isMalformed]
      omega
    | json v =>
      cases hp : parseRecord v with
      | none =>
        simp only [List.foldl_cons, loadStep, hp]
        rw [ih]
        simp [validRecords, isMalformed, hp]
        omega
      | some r =>
        simp only [List.foldl_cons, loadStep, hp]
        rw [ih]
        simp [validRecords, isMalformed, hp]

/-- The parsing loop of `load` computes exactly the replay of the valid
    records, and counts exactly the malformed lines. -/
theorem loadScan_eq (lines : List Line) :
    loadScan lines = (replayRecords (validRecords lines), (lines.filter isMalformed).length) := by
  unfold loadScan replayRecords
  rw [loadScan_eq_aux]
  simp

theorem keys_dictInsert_nodup (m : List (String × Rec)) (k : String) (v : Rec)
    (h : (m.map Prod.fst).Nodup) : ((dictInsert m k v).map Prod.fst).Nodup := by
  unfold dictInsert
  by_cases hany : m.any (fun p => p.1 == k) = true
  · rw [if_pos hany]
    have hkeys : (m.map (fun p => if p.1 = k then (k, v) else p)).map Prod.fst
        = m.map Prod.fst := by
      rw [List.map_map]
      apply List.map_congr_left
      intro p _
      by_cases hp : p.1 = k <;> simp [hp]
    rw [hkeys]
    exact h
  · rw [if_neg hany]
    have hk : k ∉ m.map Prod.fst := by
      intro hmem
      apply hany
      rw [List.any_eq_true]
      obtain ⟨p, hp, hpk⟩ := List.mem_map.mp hmem
      exact ⟨p, hp, by simp [hpk]⟩
    rw [List.map_append]
    simp [List.nodup_append, h, hk]

theorem keys_replay_aux (rs : List CaptionRecord) :
    ∀ m : List (String × Rec), (m.map Prod.fst).Nodup →
      ((rs.foldl (fun m r => dictInsert m r.rel_path ⟨r.caption, r.status⟩) m).map
        Prod.fst).Nodup := by
  induction rs with
  | nil => intro m h; exact h
  | cons r rs ih =>
    intro m h
    exact ih _ (keys_dictInsert_nodup m r.rel_path ⟨r.caption, r.status⟩ h)

theorem keys_replayRecords_nodup (rs : List CaptionRecord) :
    ((replayRecords rs).map Prod.fst).Nodup :=
  keys_replay_aux rs [] (by simp)

theorem lookup_eq_some_of_mem {m : List (String × Rec)} {k : String} {v : Rec}
    (hnd : (m.map Prod.fst).Nodup) (h : (k, v) ∈ m) : List.lookup k m = some v := by
  induction m with
  | nil => simp at h
  | cons a m ih =>
    rw [List.map_cons, List.nodup_cons] at hnd
    rcases List.mem_cons.mp h with h | h
    · subst h
      rw [lookup_cons, if_pos rfl]
    · have hk : k ≠ a.1 := by
        intro hk
        exact hnd.1 (hk ▸ List.mem_map.mpr ⟨(k, v), h, rfl⟩)
      rw [lookup_cons, if_neg hk, ih hnd.2 h]

theorem mem_of_lookup_eq_some {m : List (String × Rec)} {k : String} {v : Rec}
    (h : List.lookup k m = some v) : (k, v) ∈ m := by
  induction m with
  | nil => simp [List.lookup] at h
  | cons a m ih =>
    rw [lookup_cons] at h
    by_cases hk : k = a.1
    · rw [if_pos hk] at h
      injection h with h2
      rw [hk, ← h2]
      exact List.mem_cons_self _ _
    · rw [if_neg hk] at h
      exact List.mem_cons_of_mem _ (ih h)

theorem mem_doneOf (records : List (String × Rec)) (retry : List String) (key : String) :
    key ∈ doneOf records retry ↔
      ∃ rec, (key, rec) ∈ records ∧ retry.contains rec.status.toString = false := by
  unfold doneOf
  constructor
  · intro h
    obtain ⟨p, hp, hpk⟩ := List.mem_map.mp h
    rw [List.mem_filter] at hp
    refine ⟨p.2, ?_, ?_⟩
    · rw [← hpk]
      exact hp.1
    · have := hp.2
      simp only [decide_eq_true_eq] at this
      simpa using this
  · rintro ⟨rec, hmem, hret⟩
    apply List.mem_map.mpr
    refine ⟨(key, rec), ?_, rfl⟩
    rw [List.mem_filter]
    exact ⟨hmem, by simpa using hret⟩

/-- C2: after `load(retrySet)`, `is_done(key)` is true iff a record exists
    for the key in the replayed map and the status of its last valid record
    is not a member of the retry set; in particular a key whose current
    status is in the retry set reports not-done although a record exists. -/
theorem C2_done_set_retry_exclusion (j : CaptionJournal) (retry : List String) (key : String) :
    ((j.load retry).is_done key = true) ↔
      ∃ rec, List.lookup key (j.load retry).records = some rec ∧
        retry.contains rec.status.toString = false := by
  have hm : ((loadScan j.file).1.map Prod.fst).Nodup := by
    rw [loadScan_eq]
    exact keys_replayRecords_nodup _
  show ((doneOf (loadScan j.file).1 retry).contains key = true) ↔
      ∃ rec, List.lookup key (loadScan j.file).1 = some rec ∧
        retry.contains rec.status.toString = false
  constructor
  · intro h
    have hmem : key ∈ doneOf (loadScan j.file).1 retry := by simpa using h
    obtain ⟨rec, hrec, hret⟩ := (mem_doneOf _ _ _).mp hmem
    exact ⟨rec, lookup_eq_some_of_mem hm hrec, hret⟩
  · rintro ⟨rec, hlk, hret⟩
    have : key ∈ doneOf (loadScan j.file).1 retry :=
      (mem_doneOf _ _ _).mpr ⟨rec, mem_of_lookup_eq_some hlk, hret⟩
    simpa using this

/-- C4: for a journal file that arbitrarily interleaves valid and malformed
    lines, `load` returns the replay (last valid line per key winning) of
    exactly the valid lines, counts the malformed ones, and — being a total
    function — never raises because of them. -/
theorem C4_load_tolerates_malformed_lines (lines : List Line) (r0 : List (String × Rec))
    (d0 : List String) (fo : Bool) (retry : List String) :
    (CaptionJournal.load ⟨lines, r0, d0, fo⟩ retry).records
        = replayRecords (validRecords lines) ∧
      CaptionJournal.loadDiscarded ⟨lines, r0, d0, fo⟩ = (lines.filter isMalformed).length := by
  constructor
  · show (loadScan lines).1 = _
    rw [loadScan_eq]
  · show (loadScan lines).2 = _
    rw [loadScan_eq]

/-- C8: a JSON line with the three required, well-typed fields plus any
    number of extra fields is accepted: it parses to the expected record,
    its record lands in the loaded map, and it is not counted as
    malformed. -/
theorem C8_extra_fields_ignored (fields : List (String × JsonValue)) (pre : List Line)
    (p : String) (cap : Option String) (s : String) (st : Status)
    (hrp : jsonLookup fields "rel_path" = some (.str p))
    (hcap : jsonLookup fields "caption"
        = some (match cap with | none => .null | some c => .str c))
    (hst : jsonLookup fields "status" = some (.str s))
    (hs : parseStatus s = some st) :
    parseRecord (.obj fields) = some ⟨p, cap, st⟩ ∧
      List.lookup p (loadScan (pre ++ [Line.json (.obj fields)])).1 = some ⟨cap, st⟩ ∧
      (loadScan (pre ++ [Line.json (.obj fields)])).2 = (loadScan pre).2 := by
  have hparse : parseRecord (.obj fields) = some ⟨p, cap, st⟩ := by
    cases cap <;>
      simp [parseRecord, hrp, hcap, hst, hs, asStr, asNullableStr, bind, Option.bind]
  have hfold : loadScan (pre ++ [Line.json (.obj fields)])
      = loadStep (loadScan pre) (Line.json (.obj fields)) := by
    unfold loadScan
    rw [List.foldl_append]
    rfl
  refine ⟨hparse, ?_, ?_⟩
  · rw [hfold]
    simp only [loadStep, hparse]
    rw [lookup_dictInsert]
    simp
  · rw [hfold]
    simp only [loadStep, hparse]

/-- C8 witness: a concrete line carrying two unknown extra fields is
    loaded, not discarded. -/
theorem C8_extra_fields_ignored_witness :
    parseRecord (.obj [("rel_path", .str "a.jpg"), ("extra", .num 7), ("caption", .null),
        ("status", .str "success"), ("more", .bool true)]) = some ⟨"a.jpg", none, .success⟩ ∧
      List.lookup "a.jpg" (loadScan ([] ++ [Line.json (.obj [("rel_path", .str "a.jpg"),
        ("extra", .num 7), ("caption", .null), ("status", .str "success"),
        ("more", .bool true)])])).1 = some ⟨none, .success⟩ ∧
      (loadScan ([] ++ [Line.json (.obj [("rel_path", .str "a.jpg"), ("extra", .num 7),
        ("caption", .null), ("status", .str "success"), ("more", .bool true)])])).2
        = (loadScan []).2 :=
  C8_extra_fields_ignored _ [] "a.jpg" none "success" .success rfl rfl rfl rfl

/-- C10: calling `write` with a status outside the closed set raises the
    pydantic validation error on the record construction, before the file
    is opened or appended to and before the done set is updated: the whole
    journal state is returned unchanged. -/
theorem C10_write_invalid_status_atomic (j : CaptionJournal) (rel_path : String)
    (caption : Option String) (status : String) (h : parseStatus status = none) :
    j.write rel_path caption status = (.error .validationError, j) := by
  unfold CaptionJournal.write
  rw [h]

/-- C10 witness: a concrete invalid status leaves a concrete journal
    untouched. -/
theorem C10_write_invalid_status_atomic_witness :
    (freshJournal [Line.blank]).write "a.jpg" (some "cat") "error_transient"
      = (.error .validationError, freshJournal [Line.blank]) :=
  C10_write_invalid_status_atomic _ _ _ _ rfl

/-- A sequence of `write(key, result, status)` calls with statuses drawn
    from the closed set, executed in order on a journal object. -/
def applyWrites (j : CaptionJournal) : List CaptionRecord → CaptionJournal
  | [] => j
  | w :: ws => applyWrites (j.write w.rel_path w.caption w.status.toString).2 ws

/-- The last write targeting a key, if any. -/
def lastWriteFor (ws : List CaptionRecord) (key : String) : Option CaptionRecord :=
  ws.reverse.find? (fun w => w.rel_path == key)

theorem write_valid (j : CaptionJournal) (r : String) (c : Option String) (st : Status) :
    j.write r c st.toString =
      (.ok (), { j with
                 file := j.file ++ [Line.json (serializeRecord ⟨r, c, st⟩)],
                 fileOpen := true,
                 done := pyInsert j.done r }) := by
  unfold CaptionJournal.write
  rw [parseStatus_toString]

theorem applyWrites_file (ws : List CaptionRecord) :
    ∀ j : CaptionJournal,
      (applyWrites j ws).file = j.file ++ ws.map (fun w => Line.json (serializeRecord w)) := by
  induction ws with
  | nil => intro j; simp [applyWrites]
  | cons w ws ih =>
    intro j
    show (applyWrites (j.write w.rel_path w.caption w.status.toString).2 ws).file = _
    rw [write_valid, ih]
    simp

theorem validRecords_serialized (ws : List CaptionRecord) :
    validRecords (ws.map (fun w => Line.json (serializeRecord w))) = ws := by
  induction ws with
  | nil => rfl
  | cons w ws ih =>
    simp only [List.map_cons, validRecords, List.filterMap_cons, parseRecord_serializeRecord]
    rw [show List.filterMap _ (ws.map (fun w => Line.json (serializeRecord w))) = ws from ih]

theorem lookup_replay_aux (ws : List CaptionRecord) :
    ∀ (m : List (String × Rec)) (key : String),
      List.lookup key
          (ws.foldl (fun m r => dictInsert m r.rel_path ⟨r.caption, r.status⟩) m) =
        match lastWriteFor ws key with
        | some w => some ⟨w.caption, w.status⟩
        | none => List.lookup key m := by
  induction ws with
  | nil => intro m key; simp [lastWriteFor]
  | cons w ws ih =>
    intro m key
    rw [List.foldl_cons, ih]
    have hrev : lastWriteFor (w :: ws) key
        = ((lastWriteFor ws key).or (if w.rel_path == key then some w else none)) := by
      unfold lastWriteFor
      rw [List.reverse_cons, List.find?_append]
      congr 1
      cases h : w.rel_path == key <;> simp [List.find?, h]
    rw [hrev]
    cases hlast : lastWriteFor ws key with
    | some u => simp
    | none =>
      simp only [Option.none_or]
      rw [lookup_dictInsert]
      by_cases hk : key = w.rel_path
      · simp [hk]
      · have : (w.rel_path == key) = false := by simp [Ne.symm hk]
        simp [hk, this]

theorem lastWriteFor_isSome (ws : List CaptionRecord) (key : String) :
    (lastWriteFor ws key).isSome = true ↔ key ∈ ws.map (fun w => w.rel_path) := by
  unfold lastWriteFor
  rw [List.find?_isSome]
  constructor
  · rintro ⟨w, hw, hwk⟩
    exact List.mem_map.mpr ⟨w, List.mem_reverse.mp hw, by simpa using hwk.symm⟩
  · intro h
    obtain ⟨w, hw, hwk⟩ := List.mem_map.mp h
    exact ⟨w, List.mem_reverse.mpr hw, by simp [hwk]⟩

/-- C1: a sequence of `write` calls with statuses from the closed set,
    then `close()`, then a fresh `load()` of the same file: the returned
    map has exactly the written keys, and each key's record carries the
    caption and status of the last write targeting it. -/
theorem C1_roundtrip_last_write_wins (ws : List CaptionRecord) (key : String) :
    List.lookup key (((applyWrites (freshJournal []) ws).close).load []).records
        = (lastWriteFor ws key).map (fun w => (⟨w.caption, w.status⟩ : Rec)) ∧
      ((List.lookup key (((applyWrites (freshJournal []) ws).close).load []).records).isSome
        ↔ key ∈ ws.map (fun w => w.rel_path)) := by
  have hfile : ((applyWrites (freshJournal []) ws).close).file
      = ws.map (fun w => Line.json (serializeRecord w)) := by
    show (applyWrites (freshJournal []) ws).file = _
    rw [applyWrites_file]
    rfl
  have hrec : (((applyWrites (freshJournal []) ws).close).load []).records
      = replayRecords ws := by
    show (loadScan ((applyWrites (freshJournal []) ws).close).file).1 = _
    rw [hfile, loadScan_eq, validRecords_serialized]
  have hmain : List.lookup key (((applyWrites (freshJournal []) ws).close).load []).records
      = (lastWriteFor ws key).map (fun w => (⟨w.caption, w.status⟩ : Rec)) := by
    rw [hrec]
    unfold replayRecords
    rw [lookup_replay_aux]
    cases lastWriteFor ws key <;> simp
  refine ⟨hmain, ?_⟩
  rw [hmain]
  rw [← lastWriteFor_isSome ws key]
  cases lastWriteFor ws key <;> simp

/-- Python substring test `needle in haystack` on character lists. -/
def listContainsSub (needle : List Char) : List Char → Bool
  | [] => needle.isEmpty
  | a :: rest => needle.isPrefixOf (a :: rest) || listContainsSub needle rest

/-- Python's `needle in haystack` on strings. -/
def pyIn (needle haystack : String) : Bool :=
  listContainsSub needle.data haystack.data

/-- An exception escaping the body of `process_one`'s try block: the
    `CorruptImageError` raised by `load_image`, or any other exception
    (identified here only by its message). -/
inductive PyExc where
  | corrupt (msg : String)
  | other (msg : String)

/-- `process_one` from `run` in `src/caption.py`: try the item, journal a
    `success` record on success; on `CorruptImageError` journal
    `error_corrupt`; on any other exception journal `error_api` when the
    string `"api"` occurs in the backend name given on the command line,
    else `error_model`.  `outcome` stands for what the try-block body
    (`load_image` then `be.caption`) did for this item. -/
def process_one (backend : String) (j : CaptionJournal) (rel_path : String)
    (outcome : Except PyExc String) : CaptionJournal :=
  match outcome with
  | .ok caption => (j.write rel_path (some caption) "success").2
  | .error (.corrupt _) => (j.write rel_path none "error_corrupt").2
  | .error (.other _) =>
      let status := if pyIn "api" backend then "error_api" else "error_model"
      (j.write rel_path none status).2

/-- The record `process_one` journals for an item, as a function of the
    outcome — the classification of §3's taxonomy as the code implements
    it. -/
def outcomeRecord (backend rel_path : String) : Except PyExc String → CaptionRecord
  | .ok caption => ⟨rel_path, some caption, .success⟩
  | .error (.corrupt _) => ⟨rel_path, none, .error_corrupt⟩
  | .error (.other _) =>
      ⟨rel_path, none, if pyIn "api" backend then .error_api else .error_model⟩

theorem process_one_eq (backend : String) (j : CaptionJournal) (rel_path : String)
    (out : Except PyExc String) :
    process_one backend j rel_path out =
      { j with
        file := j.file ++ [Line.json (serializeRecord (outcomeRecord backend rel_path out))],
        fileOpen := true,
        done := pyInsert j.done rel_path } := by
  cases out with
  | ok c => rfl
  | error e =>
    cases e with
    | corrupt m => rfl
    | other m => cases h : pyIn "api" backend <;> simp [process_one, outcomeRecord, h,
        CaptionJournal.write, parseStatus]

/-- The sequential (`max_workers <= 1`) dispatch loop of `run`: process
    each pending item in order, incrementing `processed`, and break once
    `restart_every > 0` and `processed >= restart_every`. -/
def seqLoop (backend : String) (cap : String → Except PyExc String) (restart_every : Nat) :
    CaptionJournal → Nat → List String → CaptionJournal × Nat
  | j, processed, [] => (j, processed)
  | j, processed, rp :: rest =>
      let j' := process_one backend j rp (cap rp)
      let p' := processed + 1
      if 0 < restart_every ∧ restart_every ≤ p' then (j', p')
      else seqLoop backend cap restart_every j' p' rest

theorem seqLoop_no_checkpoint (backend : String) (cap : String → Except PyExc String)
    (pending : List String) :
    ∀ (j : CaptionJournal) (p : Nat),
      seqLoop backend cap 0 j p pending
        = (pending.foldl (fun j rp => process_one backend j rp (cap rp)) j, p + pending.length) := by
  induction pending with
  | nil => intro j p; simp [seqLoop]
  | cons rp rest ih =>
    intro j p
    simp only [seqLoop]
    rw [if_neg (by omega), ih]
    simp only [List.foldl_cons, List.length_cons, Prod.mk.injEq]
    exact ⟨trivial, by omega⟩

theorem seqLoop_checkpoint (backend : String) (cap : String → Except PyExc String)
    (R : Nat) (pending : List String) :
    ∀ (j : CaptionJournal) (p : Nat), 0 < R → p < R →
      seqLoop backend cap R j p pending
        = ((pending.take (R - p)).foldl (fun j rp => process_one backend j rp (cap rp)) j,
            p + min pending.length (R - p)) := by
  induction pending with
  | nil => intro j p hR hp; simp [seqLoop]
  | cons rp rest ih =>
    intro j p hR hp
    simp only [seqLoop]
    by_cases hstop : R ≤ p + 1
    · rw [if_pos ⟨hR, hstop⟩]
      have hRp : R - p = 1 := by omega
      rw [hRp]
      simp only [List.take, List.foldl_cons, List.foldl_nil, List.length_cons, Prod.mk.injEq]
      exact ⟨trivial, by omega⟩
    · rw [if_neg (by omega)]
      rw [ih _ (p + 1) hR (by omega)]
      have hRp : R - p = (R - (p + 1)) + 1 := by omega
      rw [hRp]
      simp only [List.take_succ_cons, List.foldl_cons, List.length_cons, Prod.mk.injEq]
      exact ⟨trivial, by omega⟩

theorem foldl_process_file (backend : String) (cap : String → Except PyExc String)
    (l : List String) :
    ∀ j : CaptionJournal,
      (l.foldl (fun j rp => process_one backend j rp (cap rp)) j).file
        = j.file ++ l.map
            (fun rp => Line.json (serializeRecord (outcomeRecord backend rp (cap rp)))) := by
  induction l with
  | nil => intro j; simp
  | cons rp rest ih =>
    intro j
    rw [List.foldl_cons, ih, process_one_eq]
    simp

theorem foldl_process_done (backend : String) (cap : String → Except PyExc String)
    (l : List String) :
    ∀ j : CaptionJournal,
      (l.foldl (fun j rp => process_one backend j rp (cap rp)) j).done
        = l.foldl pyInsert j.done := by
  induction l with
  | nil => intro j; simp
  | cons rp rest ih =>
    intro j
    rw [List.foldl_cons, ih, process_one_eq]
    rfl

/-- The caller-visible outcome of one `run` invocation: the process exit
    code, the final info message printed to the console, the journal it
    ends with, and the `processed` counter. -/
structure RunOutcome where
  exitCode : Nat
  finalMsg : String
  journal : CaptionJournal
  processed : Nat

/-- The `run` command of `src/caption.py`, on its sequential
    (`max_workers <= 1`) path with `dry_run` off: load the journal (unless
    `--force`), filter the collected photos to the pending ones, apply
    `--limit`, exit 0 with "Nothing to do." on an empty backlog, otherwise
    run the dispatch loop, close the journal, and signal either exit 2
    ("Batch of N done. M remaining.") when a checkpoint was configured and
    backlog remains, or exit 0 ("Done. Processed N images."). -/
def runSeq (backend : String) (cap : String → Except PyExc String) (photos : List String)
    (file : List Line) (restart_every : Nat) (retry_statuses : List String)
    (force : Bool) (limit : Nat) : RunOutcome :=
  let j0 := if force then freshJournal file else (freshJournal file).load retry_statuses
  let pending0 := photos.filter (fun rp => ¬ j0.is_done rp)
  let pending := if 0 < limit then pending0.take limit else pending0
  if pending.isEmpty then
    { exitCode := 0, finalMsg := "Nothing to do.", journal := j0.close, processed := 0 }
  else
    let res := seqLoop backend cap restart_every j0 0 pending
    let processed := res.2
    let remaining := pending.length - processed
    if 0 < restart_every ∧ 0 < remaining then
      { exitCode := 2,
        finalMsg := "Batch of " ++ Nat.repr processed ++ " done. "
          ++ Nat.repr remaining ++ " remaining.",
        journal := res.1.close, processed := processed }
    else
      { exitCode := 0,
        finalMsg := "Done. Processed " ++ Nat.repr processed ++ " images.",
        journal := res.1.close, processed := processed }

/-- C5: with checkpointing disabled, the dispatch loop is total over any
    per-item outcomes — an item whose processing raises is caught by
    `process_one`, which journals exactly one record for it — and the run
    reaches every pending item: the journal gains exactly one record per
    item, in order, and the processed count equals the backlog length. -/
theorem C5_per_item_failure_isolated (backend : String) (cap : String → Except PyExc String)
    (j : CaptionJournal) (pending : List String) :
    (seqLoop backend cap 0 j 0 pending).1.file
        = j.file ++ pending.map
            (fun rp => Line.json (serializeRecord (outcomeRecord backend rp (cap rp)))) ∧
      (seqLoop backend cap 0 j 0 pending).2 = pending.length := by
  rw [seqLoop_no_checkpoint]
  exact ⟨foldl_process_file backend cap pending j, by simp⟩

/-- C6: the failure taxonomy as implemented: a `CorruptImageError` is
    journaled as `error_corrupt`; any other exception is journaled as
    `error_api` exactly when the substring "api" occurs in the supplied
    backend name, and as `error_model` otherwise — independently of the
    exception itself. -/
theorem C6_failure_classification (backend : String) (j : CaptionJournal)
    (rel_path m m' : String) :
    (process_one backend j rel_path (.error (.corrupt m))).file
        = j.file ++ [Line.json (serializeRecord ⟨rel_path, none, .error_corrupt⟩)] ∧
      (process_one backend j rel_path (.error (.other m))).file
        = j.file ++ [Line.json (serializeRecord ⟨rel_path, none,
            if pyIn "api" backend then .error_api else .error_model⟩)] ∧
      outcomeRecord backend rel_path (.error (.other m))
        = outcomeRecord backend rel_path (.error (.other m')) ∧
      ((outcomeRecord backend rel_path (.error (.other m))).status = .error_api
        ↔ pyIn "api" backend = true) := by
  refine ⟨?_, ?_, rfl, ?_⟩
  · rw [process_one_eq]
    rfl
  · rw [process_one_eq]
    rfl
  · show (if pyIn "api" backend then Status.error_api else Status.error_model) = .error_api ↔ _
    cases h : pyIn "api" backend <;> simp

/-- The three end states of §6 a run can finish in. -/
inductive EndState where
  | nothingToDo
  | checkpointReached
  | fullyDrained
deriving DecidableEq

/-- Which end state a run with these inputs finishes in, mirroring the
    branch structure of `runSeq`: empty backlog before starting; stopped
    at the checkpoint with backlog remaining; or no backlog left. -/
def endStateOf (backend : String) (cap : String → Except PyExc String) (photos : List String)
    (file : List Line) (restart_every : Nat) (retry_statuses : List String)
    (force : Bool) (limit : Nat) : EndState :=
  let j0 := if force then freshJournal file else (freshJournal file).load retry_statuses
  let pending0 := photos.filter (fun rp => ¬ j0.is_done rp)
  let pending := if 0 < limit then pending0.take limit else pending0
  if pending.isEmpty then .nothingToDo
  else
    let res := seqLoop backend cap restart_every j0 0 pending
    if 0 < restart_every ∧ 0 < pending.length - res.2 then .checkpointReached
    else .fullyDrained

/-- Decoding the end state back from what the caller observes: the exit
    code together with the final console message. -/
def classifySignal (o : RunOutcome) : EndState :=
  if o.exitCode = 2 then .checkpointReached
  else if o.finalMsg = "Nothing to do." then .nothingToDo
  else .fullyDrained

theorem done_msg_ne_nothing (p : Nat) :
    ("Done. Processed " ++ Nat.repr p ++ " images.") ≠ "Nothing to do." := by
  intro h
  have hl := congrArg String.length h
  rw [String.length_append, String.length_append] at hl
  have e1 : ("Done. Processed " : String).length = 16 := rfl
  have e2 : (" images." : String).length = 8 := rfl
  have e3 : ("Nothing to do." : String).length = 14 := rfl
  rw [e1, e2, e3] at hl
  omega

/-- C7 (amended to the sequential path): for every `max_workers <= 1` run
    — the path `run` takes after the local-backend clamp, see
    `run_eq_runSeq` — the three end states: nothing to do, checkpoint
    reached, fully drained, are each mapped to a distinct
    caller-observable signal: the end state can always be decoded back
    from the exit code and the final console message of the run.  On the
    threaded path this fails, see the counterexample. -/
theorem C7_exit_states_distinguishable (backend : String) (cap : String → Except PyExc String)
    (photos : List String) (file : List Line) (restart_every : Nat)
    (retry_statuses : List String) (force : Bool) (limit : Nat) :
    classifySignal (runSeq backend cap photos file restart_every retry_statuses force limit)
      = endStateOf backend cap photos file restart_every retry_statuses force limit := by
  simp only [runSeq, endStateOf]
  split_ifs <;> simp [classifySignal, done_msg_ne_nothing]

/-- `SUBMIT_BATCH` from `src/caption.py`: the submission window bounding
    in-flight futures. -/
def SUBMIT_BATCH : Nat := 500

/-- `_batched(iterable, n)` from `src/caption.py`: consecutive chunks of
    at most `n` items (none at all when `n = 0`, matching `islice`). -/
def _batched {α : Type} : Nat → List α → List (List α)
  | 0, _ => []
  | _ + 1, [] => []
  | n + 1, x :: rest => (x :: rest.take n) :: _batched (n + 1) (rest.drop n)
termination_by _ xs => xs.length
decreasing_by
  simp only [List.length_drop, List.length_cons]
  omega

theorem batched_chunk_length_le_aux {α : Type} :
    ∀ (fuel n : Nat) (xs : List α), xs.length ≤ fuel →
      ∀ c ∈ _batched n xs, c.length ≤ n := by
  intro fuel
  induction fuel with
  | zero =>
    intro n xs hlen c hc
    have hxs : xs = [] := List.length_eq_zero.mp (Nat.le_zero.mp hlen)
    subst hxs
    cases n <;> simp [_batched] at hc
  | succ fuel ih =>
    intro n xs hlen c hc
    match n, xs with
    | 0, xs => simp [_batched] at hc
    | n + 1, [] => simp [_batched] at hc
    | n + 1, x :: rest =>
      simp only [_batched] at hc
      rcases List.mem_cons.mp hc with hc | hc
      · subst hc
        simp only [List.length_cons, List.length_take]
        omega
      · refine ih (n + 1) (rest.drop n) ?_ c hc
        simp only [List.length_drop]
        simp only [List.length_cons] at hlen
        omega

theorem batched_chunk_length_le {α : Type} (n : Nat) (xs : List α) :
    ∀ c ∈ _batched n xs, c.length ≤ n :=
  batched_chunk_length_le_aux xs.length n xs (Nat.le_refl _)

/-- State of the `max_workers > 1` dispatch path: the chunks not yet
    begun, the items of the current chunk not yet handed to a worker, and
    the items whose capability invocation is in flight right now. -/
structure SchedState where
  queued : List (List String)
  current : List String
  active : List String

/-- Interleaving semantics of the threaded dispatch path: each chunk from
    `_batched(pending, SUBMIT_BATCH)` is submitted to a
    `ThreadPoolExecutor(max_workers=W)`, which never runs more than `W`
    submitted tasks at once (the `hW` guard); the loop waits for a chunk
    to drain fully before submitting the next one. -/
inductive SchedStep (W : Nat) : SchedState → SchedState → Prop where
  | start (s : SchedState) (item : String) (hmem : item ∈ s.current)
      (hW : s.active.length < W) :
      SchedStep W s ⟨s.queued, s.current.erase item, item :: s.active⟩
  | finish (s : SchedState) (item : String) (hmem : item ∈ s.active) :
      SchedStep W s ⟨s.queued, s.current, s.active.erase item⟩
  | nextBatch (s : SchedState) (b : List String) (rest : List (List String))
      (hcur : s.current = []) (hact : s.active = []) (hq : s.queued = b :: rest) :
      SchedStep W s ⟨rest, b, []⟩

/-- Initial state of a threaded run over a backlog. -/
def initSched (pending : List String) : SchedState :=
  ⟨_batched SUBMIT_BATCH pending, [], []⟩

/-- The states a threaded run over `pending` with pool size `W` can be
    in. -/
inductive SchedReachable (W : Nat) (pending : List String) : SchedState → Prop where
  | init : SchedReachable W pending (initSched pending)
  | step {s t : SchedState} : SchedReachable W pending s → SchedStep W s t →
      SchedReachable W pending t

/-- Inductive invariant of the threaded path. -/
def SchedInv (W : Nat) (s : SchedState) : Prop :=
  s.active.length ≤ W ∧ s.current.length + s.active.length ≤ SUBMIT_BATCH ∧
    ∀ b ∈ s.queued, b.length ≤ SUBMIT_BATCH

theorem schedInv_of_reachable (W : Nat) (pending : List String) (s : SchedState)
    (h : SchedReachable W pending s) : SchedInv W s := by
  induction h with
  | init =>
    refine ⟨Nat.zero_le _, by simp [initSched, SUBMIT_BATCH], ?_⟩
    exact batched_chunk_length_le SUBMIT_BATCH pending
  | step hr hstep ih =>
    rename_i s' t'
    obtain ⟨ihW, ihS, ihQ⟩ := ih
    cases hstep with
    | start item hmem hW =>
      refine ⟨by simpa using hW, ?_, ihQ⟩
      have hc : 0 < s'.current.length := List.length_pos.mpr (List.ne_nil_of_mem hmem)
      have he : (s'.current.erase item).length = s'.current.length - 1 :=
        List.length_erase_of_mem hmem
      simp only [List.length_cons, he]
      omega
    | finish item hmem =>
      have he : (s'.active.erase item).length = s'.active.length - 1 :=
        List.length_erase_of_mem hmem
      refine ⟨by simp only [he]; omega, ?_, ihQ⟩
      simp only [he]
      omega
    | nextBatch b rest hcur hact hq =>
      refine ⟨Nat.zero_le _, ?_, ?_⟩
      · have := ihQ b (by rw [hq]; exact List.mem_cons_self _ _)
        simpa using this
      · intro c hc
        exact ihQ c (by rw [hq]; exact List.mem_cons_of_mem _ hc)

/-- C9: at every instant of a threaded run, the number of concurrently
    active capability invocations is at most `min(W, SUBMIT_BATCH)`; with
    `W = 1` no two invocations ever overlap (the code in fact routes
    `max_workers <= 1` through the fully sequential `seqLoop` path and
    builds no pool at all). -/
theorem C9_bounded_concurrency (W : Nat) (pending : List String) (s : SchedState)
    (h : SchedReachable W pending s) :
    s.active.length ≤ min W SUBMIT_BATCH ∧ (W = 1 → s.active.length ≤ 1) := by
  obtain ⟨hW, hS, _⟩ := schedInv_of_reachable W pending s h
  constructor
  · exact Nat.le_min.mpr ⟨hW, by omega⟩
  · intro h1
    subst h1
    exact hW

/-- C9 witness: the bound holds at the initial state of a small concrete
    run with two workers. -/
theorem C9_bounded_concurrency_witness :
    (initSched ["a", "b"]).active.length ≤ min 2 SUBMIT_BATCH ∧
      ((2:Nat) = 1 → (initSched ["a", "b"]).active.length ≤ 1) :=
  C9_bounded_concurrency 2 ["a", "b"] _ SchedReachable.init

/-- The ten-item backlog of the checkpoint scenario. -/
def photos10 : List String :=
  ["p0", "p1", "p2", "p3", "p4", "p5", "p6", "p7", "p8", "p9"]

/-- A capability that succeeds on every item. -/
def capOk : String → Except PyExc String := fun rp => .ok rp

/-- First run of the scenario: backlog of 10, `restart_every = 4`,
    sequential path, empty journal. -/
def c3run1 : RunOutcome := runSeq "mock" capOk photos10 [] 4 [] false 0

/-- Second run over the same backlog and the journal the first run left. -/
def c3run2 : RunOutcome := runSeq "mock" capOk photos10 c3run1.journal.file 4 [] false 0

/-- C3 counterexample: at `W = 1` the first run does process 4 items and
    exit 2, but the second run again processes only 4 items — not the
    remaining 6 — and again exits 2 instead of signaling full
    completion. -/
theorem C3_counterexample :
    c3run1.processed = 4 ∧ c3run1.exitCode = 2 ∧
      c3run2.processed = 4 ∧ c3run2.exitCode = 2 ∧ ¬ (c3run2.processed = 6 ∧ c3run2.exitCode = 0) := by
  decide

theorem outcomeRecord_rel_path (backend rp : String) (out : Except PyExc String) :
    (outcomeRecord backend rp out).rel_path = rp := by
  cases out with
  | ok c => rfl
  | error e => cases e <;> rfl

/-- The journal line `process_one` appends for an item. -/
def lineOf (backend : String) (cap : String → Except PyExc String) (rp : String) : Line :=
  Line.json (serializeRecord (outcomeRecord backend rp (cap rp)))

theorem any_key_iff_mem (m : List (String × Rec)) (k : String) :
    m.any (fun p => p.1 == k) = true ↔ k ∈ m.map Prod.fst := by
  rw [List.any_eq_true]
  constructor
  · rintro ⟨p, hp, hpk⟩
    exact List.mem_map.mpr ⟨p, hp, beq_iff_eq.mp hpk⟩
  · intro h
    obtain ⟨p, hp, hpk⟩ := List.mem_map.mp h
    exact ⟨p, hp, by simp [hpk]⟩

theorem doneOf_nil_retry (m : List (String × Rec)) : doneOf m [] = m.map Prod.fst := by
  unfold doneOf
  have : m.filter (fun p => ¬ ([] : List String).contains p.2.status.toString) = m :=
    List.filter_eq_self.mpr (by intro p _; simp)
  rw [this]

theorem replay_fresh (rs : List CaptionRecord) :
    ∀ m : List (String × Rec),
      (∀ r ∈ rs, r.rel_path ∉ m.map Prod.fst) →
      (rs.map (fun r => r.rel_path)).Nodup →
      rs.foldl (fun m r => dictInsert m r.rel_path ⟨r.caption, r.status⟩) m
        = m ++ rs.map (fun r => (r.rel_path, (⟨r.caption, r.status⟩ : Rec))) := by
  induction rs with
  | nil => intro m _ _; simp
  | cons r rs ih =>
    intro m hfresh hnd
    rw [List.map_cons, List.nodup_cons] at hnd
    rw [List.foldl_cons]
    have hmem : r.rel_path ∉ m.map Prod.fst := hfresh r (List.mem_cons_self _ _)
    have hany : m.any (fun p => p.1 == r.rel_path) = false := by
      rw [← Bool.not_eq_true]
      intro hh
      exact hmem ((any_key_iff_mem m r.rel_path).mp hh)
    have hins : dictInsert m r.rel_path ⟨r.caption, r.status⟩
        = m ++ [(r.rel_path, ⟨r.caption, r.status⟩)] := by
      unfold dictInsert
      rw [if_neg (by simp [hany])]
    have hfresh' : ∀ r' ∈ rs,
        r'.rel_path ∉ (m ++ [(r.rel_path, (⟨r.caption, r.status⟩ : Rec))]).map Prod.fst := by
      intro r' hr'
      rw [List.map_append, List.mem_append]
      rintro (h | h)
      · exact hfresh r' (List.mem_cons_of_mem _ hr') h
      · simp only [List.map_cons, List.map_nil, List.mem_singleton] at h
        exact hnd.1 (h ▸ List.mem_map.mpr ⟨r', hr', rfl⟩)
    rw [hins, ih _ hfresh' hnd.2]
    simp

theorem load_clean_prefix_done (backend : String) (cap : String → Except PyExc String)
    (l : List String) (hnd : l.Nodup) :
    ((freshJournal (l.map (lineOf backend cap))).load []).done = l := by
  have hfile : l.map (lineOf backend cap)
      = (l.map (fun rp => outcomeRecord backend rp (cap rp))).map
          (fun w => Line.json (serializeRecord w)) := by
    rw [List.map_map]
    rfl
  have hkeys : (l.map (fun rp => outcomeRecord backend rp (cap rp))).map
      (fun r => r.rel_path) = l := by
    rw [List.map_map]
    have hcomp : ((fun r : CaptionRecord => r.rel_path)
        ∘ fun rp => outcomeRecord backend rp (cap rp)) = fun rp => rp := by
      funext rp
      exact outcomeRecord_rel_path backend rp (cap rp)
    rw [hcomp]
    exact List.map_id' l
  show doneOf (loadScan (freshJournal (l.map (lineOf backend cap))).file).1 [] = l
  rw [show (freshJournal (l.map (lineOf backend cap))).file
      = l.map (lineOf backend cap) from rfl]
  rw [hfile, loadScan_eq]
  rw [validRecords_serialized]
  show doneOf ((l.map (fun rp => outcomeRecord backend rp (cap rp))).foldl
      (fun m r => dictInsert m r.rel_path ⟨r.caption, r.status⟩) []) [] = l
  rw [replay_fresh _ [] (by simp) (by rw [hkeys]; exact hnd)]
  rw [doneOf_nil_retry, List.nil_append, List.map_map]
  exact hkeys

theorem filter_not_contains_append (A B : List String) (h : ∀ b ∈ B, b ∉ A) :
    (A ++ B).filter (fun rp => !A.contains rp) = B := by
  rw [List.filter_append]
  have hA : A.filter (fun rp => !A.contains rp) = [] := by
    rw [List.filter_eq_nil_iff]
    intro a ha
    simp [ha]
  have hB : B.filter (fun rp => !A.contains rp) = B := by
    rw [List.filter_eq_self]
    intro b hb
    simp [h b hb]
  rw [hA, hB, List.nil_append]

theorem filter_not_contains_take (photos : List String) (k : Nat) (hnd : photos.Nodup) :
    photos.filter (fun rp => !(photos.take k).contains rp) = photos.drop k := by
  have hdisj : ∀ b ∈ photos.drop k, b ∉ photos.take k := by
    intro b hb hbtake
    have hnd' : (photos.take k ++ photos.drop k).Nodup := by
      rw [List.take_append_drop]
      exact hnd
    rw [List.nodup_append] at hnd'
    exact hnd'.2.2 hbtake hb
  have h := filter_not_contains_append (photos.take k) (photos.drop k) hdisj
  rw [List.take_append_drop] at h
  exact h

theorem runSeq_clean_prefix (backend : String) (cap : String → Except PyExc String)
    (photos : List String) (k R : Nat) (hnd : photos.Nodup) (hR : 0 < R) :
    (runSeq backend cap photos ((photos.take k).map (lineOf backend cap)) R [] false 0).processed
        = min (photos.length - k) R ∧
      (runSeq backend cap photos ((photos.take k).map (lineOf backend cap)) R [] false 0).exitCode
        = (if photos.length - k = 0 then 0 else if photos.length - k ≤ R then 0 else 2) ∧
      (runSeq backend cap photos
          ((photos.take k).map (lineOf backend cap)) R [] false 0).journal.file
        = (photos.take (k + R)).map (lineOf backend cap) := by
  have hnd2 : (photos.take k).Nodup := (List.take_sublist k photos).nodup hnd
  have hdone := load_clean_prefix_done backend cap (photos.take k) hnd2
  have hfilt : photos.filter (fun rp => decide
      ¬(((freshJournal ((photos.take k).map (lineOf backend cap))).load []).is_done rp = true))
      = photos.drop k := by
    have hcg : ∀ rp ∈ photos, (decide
        ¬(((freshJournal ((photos.take k).map (lineOf backend cap))).load []).is_done rp = true))
        = !(photos.take k).contains rp := by
      intro rp _
      rw [show ((freshJournal ((photos.take k).map (lineOf backend cap))).load []).is_done rp
          = (photos.take k).contains rp by rw [CaptionJournal.is_done, hdone]]
      cases h : (photos.take k).contains rp <;> simp [h]
    rw [List.filter_congr hcg, filter_not_contains_take photos k hnd]
  simp only [runSeq, Bool.false_eq_true, if_false, Nat.lt_irrefl]
  rw [hfilt]
  by_cases hk : photos.length ≤ k
  · have hdrop : photos.drop k = [] := List.drop_eq_nil_of_le hk
    rw [hdrop]
    simp only [List.isEmpty_nil, if_true]
    refine ⟨?_, ?_, ?_⟩
    · dsimp only
      rw [Nat.sub_eq_zero_of_le hk]
      simp
    · dsimp only
      rw [if_pos (by omega)]
    · dsimp only
      rw [List.take_of_length_le hk, List.take_of_length_le (by omega : photos.length ≤ k + R)]
      rfl
  · have hemp : (photos.drop k).isEmpty = false := by
      rw [List.isEmpty_eq_false]
      intro hnil
      have := List.length_drop k photos
      rw [hnil] at this
      simp at this
      omega
    rw [hemp]
    simp only [Bool.false_eq_true, if_false]
    rw [seqLoop_checkpoint backend cap R (photos.drop k) _ 0 hR hR]
    simp only [Nat.sub_zero, Nat.zero_add]
    by_cases hrem : R < photos.length - k
    · rw [if_pos ⟨hR, by rw [List.length_drop]; omega⟩]
      refine ⟨?_, ?_, ?_⟩
      · dsimp only
        rw [List.length_drop]
      · dsimp only
        rw [if_neg (by omega), if_neg (by omega)]
      · dsimp only
        have hclose : ∀ j : CaptionJournal, j.close.file = j.file := fun _ => rfl
        rw [hclose, foldl_process_file]
        rw [show ((freshJournal ((photos.take k).map (lineOf backend cap))).load []).file
            = (photos.take k).map (lineOf backend cap) from rfl]
        rw [List.take_add, List.map_append]
        rfl
    · rw [if_neg (by rw [List.length_drop]; omega)]
      refine ⟨?_, ?_, ?_⟩
      · dsimp only
        rw [List.length_drop]
      · dsimp only
        rw [if_neg (by omega), if_pos (by omega)]
      · dsimp only
        have hclose : ∀ j : CaptionJournal, j.close.file = j.file := fun _ => rfl
        rw [hclose, foldl_process_file]
        rw [show ((freshJournal ((photos.take k).map (lineOf backend cap))).load []).file
            = (photos.take k).map (lineOf backend cap) from rfl]
        rw [List.take_add, List.map_append]
        rfl

/-- C3 amended: for the sequential path (W = 1) with a 10-item backlog and
    `restart_every = 4`, whatever each item's outcome is: the first run
    processes and journals exactly 4 items and exits 2; a second run over
    the journal left behind processes the next 4 (not the remaining 6) and
    again exits 2; only a third run processes the remaining 2 and signals
    full completion with exit 0. -/
theorem C3_amended_checkpoint_runs (backend : String) (cap : String → Except PyExc String) :
    (runSeq backend cap photos10 [] 4 [] false 0).processed = 4 ∧
      (runSeq backend cap photos10 [] 4 [] false 0).exitCode = 2 ∧
      (runSeq backend cap photos10 [] 4 [] false 0).journal.file
        = (photos10.take 4).map (lineOf backend cap) ∧
      (runSeq backend cap photos10 ((photos10.take 4).map (lineOf backend cap))
        4 [] false 0).processed = 4 ∧
      (runSeq backend cap photos10 ((photos10.take 4).map (lineOf backend cap))
        4 [] false 0).exitCode = 2 ∧
      (runSeq backend cap photos10 ((photos10.take 4).map (lineOf backend cap))
        4 [] false 0).journal.file = (photos10.take 8).map (lineOf backend cap) ∧
      (runSeq backend cap photos10 ((photos10.take 8).map (lineOf backend cap))
        4 [] false 0).processed = 2 ∧
      (runSeq backend cap photos10 ((photos10.take 8).map (lineOf backend cap))
        4 [] false 0).exitCode = 0 ∧
      (runSeq backend cap photos10 ((photos10.take 8).map (lineOf backend cap))
        4 [] false 0).journal.file = photos10.map (lineOf backend cap) := by
  have h0 := runSeq_clean_prefix backend cap photos10 0 4 (by decide) (by decide)
  have h4 := runSeq_clean_prefix backend cap photos10 4 4 (by decide) (by decide)
  have h8 := runSeq_clean_prefix backend cap photos10 8 4 (by decide) (by decide)
  have hlen : photos10.length = 10 := rfl
  rw [hlen] at h0 h4 h8
  simp only [List.take_zero, List.map_nil] at h0
  norm_num at h0 h4 h8
  rw [List.take_of_length_le (by rw [List.length_map, hlen]; omega :
    (List.map (lineOf backend cap) photos10).length ≤ 12)] at h8
  simp only [List.map_take]
  exact ⟨h0.1, h0.2.1, h0.2.2, h4.1, h4.2.1, h4.2.2, h8.1, h8.2.1, h8.2.2⟩

theorem batched_single {α : Type} (n : Nat) (xs : List α) (hn : xs.length ≤ n)
    (hx : xs ≠ []) : _batched n xs = [xs] := by
  cases n with
  | zero =>
    have hx0 : xs = [] := List.length_eq_zero.mp (Nat.le_zero.mp hn)
    exact absurd hx0 hx
  | succ n =>
    cases xs with
    | nil => exact absurd rfl hx
    | cons x rest =>
      have h1 : rest.take n = rest := List.take_of_length_le (by
        simp only [List.length_cons] at hn
        omega)
      have h2 : rest.drop n = [] := List.drop_eq_nil_of_le (by
        simp only [List.length_cons] at hn
        omega)
      simp only [_batched, h1, h2]

/-- The completions counted by the `as_completed` loop of one chunk: one
    per yielded future, setting the `done` flag and breaking once
    `restart_every > 0` and the counter reaches it. -/
def countCompleted (restart_every : Nat) : Nat → List String → Nat × Bool
  | processed, [] => (processed, false)
  | processed, _ :: rest =>
      let p' := processed + 1
      if 0 < restart_every ∧ restart_every ≤ p' then (p', true)
      else countCompleted restart_every p' rest

/-- The `max_workers > 1` dispatch loop of `run`: chunks from `_batched`
    are taken in order, the `done` flag is checked before each chunk;
    every item of a submitted chunk is processed and journaled — the
    pool's context exit waits for all submitted futures, also after the
    checkpoint break — while `processed` advances only along the
    completions the `as_completed` loop yielded before breaking.
    `order` fixes the order in which a chunk's futures happen to complete
    (a scheduler-chosen permutation of the chunk; writes and yields follow
    completion order). -/
def runThreadedLoop (backend : String) (cap : String → Except PyExc String)
    (restart_every : Nat) (order : List String → List String) :
    CaptionJournal → Nat → Bool → List (List String) → CaptionJournal × Nat
  | j, processed, _, [] => (j, processed)
  | j, processed, done, batch :: batches =>
      if done then (j, processed)
      else
        let j' := (order batch).foldl (fun j rp => process_one backend j rp (cap rp)) j
        let pc := countCompleted restart_every processed (order batch)
        runThreadedLoop backend cap restart_every order j' pc.1 pc.2 batches

/-- The `run` command of `src/caption.py` on its threaded
    (`max_workers > 1`) path: same prologue and exit signaling as the
    sequential path, with the chunked thread-pool loop in the middle. -/
def runThreaded (backend : String) (cap : String → Except PyExc String) (photos : List String)
    (file : List Line) (restart_every : Nat) (retry_statuses : List String)
    (force : Bool) (limit : Nat) (order : List String → List String) : RunOutcome :=
  let j0 := if force then freshJournal file else (freshJournal file).load retry_statuses
  let pending0 := photos.filter (fun rp => ¬ j0.is_done rp)
  let pending := if 0 < limit then pending0.take limit else pending0
  if pending.isEmpty then
    { exitCode := 0, finalMsg := "Nothing to do.", journal := j0.close, processed := 0 }
  else
    let res := runThreadedLoop backend cap restart_every order j0 0 false
      (_batched SUBMIT_BATCH pending)
    let processed := res.2
    let remaining := pending.length - processed
    if 0 < restart_every ∧ 0 < remaining then
      { exitCode := 2,
        finalMsg := "Batch of " ++ Nat.repr processed ++ " done. "
          ++ Nat.repr remaining ++ " remaining.",
        journal := res.1.close, processed := processed }
    else
      { exitCode := 0,
        finalMsg := "Done. Processed " ++ Nat.repr processed ++ " images.",
        journal := res.1.close, processed := processed }

/-- The whole `run` command: clamp `max_workers` to 1 for the local
    backend (GPU constraint), then dispatch sequentially for
    `max_workers <= 1` and through the thread pool otherwise. -/
def run (backend : String) (cap : String → Except PyExc String) (photos : List String)
    (file : List Line) (restart_every : Nat) (retry_statuses : List String)
    (force : Bool) (limit : Nat) (max_workers : Nat)
    (order : List String → List String) : RunOutcome :=
  let mw := if backend = "local" ∧ 1 < max_workers then 1 else max_workers
  if mw ≤ 1 then
    runSeq backend cap photos file restart_every retry_statuses force limit
  else
    runThreaded backend cap photos file restart_every retry_statuses force limit order

theorem run_eq_runSeq (backend : String) (cap : String → Except PyExc String)
    (photos : List String) (file : List Line) (restart_every : Nat)
    (retry_statuses : List String) (force : Bool) (limit : Nat) (max_workers : Nat)
    (order : List String → List String) (hW : max_workers ≤ 1) :
    run backend cap photos file restart_every retry_statuses force limit max_workers order
      = runSeq backend cap photos file restart_every retry_statuses force limit := by
  unfold run
  have hmw : (if backend = "local" ∧ 1 < max_workers then 1 else max_workers) ≤ 1 := by
    split <;> omega
  rw [if_pos hmw]

/-- C7 counterexample: a threaded run (`max_workers = 2`) over a 10-item
    backlog with `restart_every = 4` journals the whole submitted window
    — no backlog remains after the run, the fully-drained end state — yet
    it emits exit code 2 and "Batch of 4 done. 6 remaining.", the very
    signal a genuinely checkpoint-reached sequential run (6 items of
    backlog remaining) emits: the fully-drained end state is not mapped
    to a distinct caller-observable signal on every run. -/
theorem C7_threaded_drained_counterexample :
    (runThreaded "mock" capOk photos10 [] 4 [] false 0 (fun b => b)).exitCode = 2 ∧
      (runThreaded "mock" capOk photos10 [] 4 [] false 0 (fun b => b)).finalMsg
        = "Batch of 4 done. 6 remaining." ∧
      photos10.filter (fun rp => ¬ ((freshJournal
          (runThreaded "mock" capOk photos10 [] 4 [] false 0
            (fun b => b)).journal.file).load []).is_done rp) = [] ∧
      (runSeq "mock" capOk photos10 [] 4 [] false 0).exitCode = 2 ∧
      (runSeq "mock" capOk photos10 [] 4 [] false 0).finalMsg
        = "Batch of 4 done. 6 remaining." ∧
      photos10.filter (fun rp => ¬ ((freshJournal
          (runSeq "mock" capOk photos10 [] 4 [] false 0).journal.file).load []).is_done rp)
        = ["p4", "p5", "p6", "p7", "p8", "p9"] := by
  have hb : _batched SUBMIT_BATCH photos10 = [photos10] :=
    batched_single SUBMIT_BATCH photos10 (by decide) (by decide)
  have hp : photos10.filter (fun rp => decide
      ¬(((freshJournal ([] : List Line)).load []).is_done rp = true)) = photos10 := by
    decide
  simp only [runThreaded, Bool.false_eq_true, if_false, Nat.lt_irrefl]
  rw [hp, hb]
  decide
